import Mathlib

/-!
Verification development for the pinned-repository scraping service
(`src/index.ts`).  The source is TypeScript running on a JS engine, so the
embedding models the JavaScript string and number builtins the code calls
(`trim`, `toLowerCase`, `endsWith`, `slice(0, -1)`, `parseInt(_, 10)`,
`parseFloat`, `Math.round`, the `||` fallback) and then translates the
program's own functions (`parseNumericValue`, `getRepoWebsite`,
`getPinnedRepos`, the request handler with its cache) on top of them.

Numbers: JavaScript numbers are IEEE doubles.  The embedding uses `ℚ` for
the float values flowing through `parseFloat`/`Math.round` and `Option` to
represent `NaN` (`none` = NaN).  For the short decimal literals exercised
here the rational result of parse/multiply/round agrees with the double
result.  Network and the DOM are external collaborators: a fetched page is
abstracted to the fields the cheerio selectors read from it, and fetch
outcomes are passed in as `Except`/oracle arguments.
-/

/-- Whitespace recognized by the JS `trim` model (the ASCII part of the
JavaScript WhiteSpace/LineTerminator classes; all inputs in this code base
are ASCII). -/
def isJsWhitespace (c : Char) : Bool :=
  c = ' ' || c = '\t' || c = '\n' || c = '\r' || c = '\x0b' || c = '\x0c'

/-- Drop the longest run of characters satisfying `p` from the end of a
list (helper for the JS `trim` model). -/
def dropTrailing (p : Char → Bool) : List Char → List Char
  | [] => []
  | c :: cs =>
    match dropTrailing p cs with
    | [] => if p c then [] else [c]
    | r => c :: r

/-- List-level body of the JS `String.prototype.trim` model: drop leading
and trailing whitespace. -/
def jsTrimList (l : List Char) : List Char :=
  dropTrailing isJsWhitespace (l.dropWhile isJsWhitespace)

/-- Model of JS `String.prototype.trim`. -/
def jsTrim (s : String) : String :=
  String.mk (jsTrimList s.toList)

/-- Model of JS `String.prototype.toLowerCase` (ASCII case folding). -/
def jsToLower (s : String) : String :=
  String.mk (s.toList.map Char.toLower)

/-- Model of JS `s.endsWith(c)` for a one-character argument. -/
def endsWithChar (s : String) (c : Char) : Bool :=
  s.toList.getLast? == some c

/-- Model of JS `s.slice(0, -1)`: the string without its last character. -/
def dropLastChar (s : String) : String :=
  String.mk s.toList.dropLast

/-- Numeric value of a run of decimal digit characters. -/
def digitsNat (ds : List Char) : Nat :=
  ds.foldl (fun a c => 10 * a + (c.toNat - 48)) 0

/-- Unsigned part of the JS `parseInt(_, 10)` model: the longest leading
digit run, `none` (NaN) when there is none. -/
def parseIntMag (cs : List Char) : Option Nat :=
  let ds := cs.takeWhile Char.isDigit
  if ds.isEmpty then none else some (digitsNat ds)

/-- Signed part of the JS `parseInt(_, 10)` model: an optional `+`/`-`
sign followed by a digit run. -/
def parseIntSigned (cs : List Char) : Option Int :=
  match cs with
  | [] => none
  | c :: r =>
    if c = '-' then (parseIntMag r).map (fun m => -(Int.ofNat m))
    else if c = '+' then (parseIntMag r).map Int.ofNat
    else (parseIntMag (c :: r)).map Int.ofNat

/-- Model of JS `parseInt(s, 10)`: skip leading whitespace, optional sign,
then the longest digit run; `none` models NaN.  (Radix 10 is fixed in the
source, so no hex handling.) -/
def parseIntJS (s : String) : Option Int :=
  parseIntSigned (s.toList.dropWhile isJsWhitespace)

/-- Exponent part of the JS `parseFloat` model, parsing what follows the
`e`/`E`: an optional sign and a digit run.  An invalid exponent part is
not consumed, which leaves the exponent at `0`, exactly as `parseFloat`
stops at the last valid prefix of the literal. -/
def parseExp (r : List Char) : Int :=
  match r with
  | '-' :: t =>
    match parseIntMag t with
    | none => 0
    | some m => -(m : Int)
  | '+' :: t =>
    match parseIntMag t with
    | none => 0
    | some m => (m : Int)
  | t =>
    match parseIntMag t with
    | none => 0
    | some m => (m : Int)

/-- Fractional part of the JS `parseFloat` model: when the remaining input
starts with `.`, its digit run and the input after it; otherwise no
fractional digits. -/
def fracPart (rest : List Char) : List Char × List Char :=
  match rest with
  | '.' :: r => (r.takeWhile Char.isDigit, r.dropWhile Char.isDigit)
  | r => ([], r)

/-- ExponentPart of the JS decimal-literal grammar: only an `e` or `E`
marker introduces an exponent (whose sign and digits `parseExp` then
parses); anything else after the mantissa is not part of the literal and
leaves the exponent at 0. -/
def expPart (rest : List Char) : Int :=
  match rest with
  | 'e' :: r => parseExp r
  | 'E' :: r => parseExp r
  | _ => 0

/-- Unsigned part of the JS `parseFloat` model: integer digits, optional
fractional digits, optional `e`/`E` exponent, as an exact rational.
`none` when neither integer nor fractional digits are present (NaN). -/
def parseFloatMag (cs : List Char) : Option ℚ :=
  let ip := cs.takeWhile Char.isDigit
  let fr := fracPart (cs.dropWhile Char.isDigit)
  if ip.isEmpty && fr.1.isEmpty then none
  else
    some (((digitsNat ip : ℚ) + (digitsNat fr.1 : ℚ) / (10 : ℚ) ^ fr.1.length)
      * (10 : ℚ) ^ expPart fr.2)

/-- Signed part of the JS `parseFloat` model. -/
def parseFloatSigned (cs : List Char) : Option ℚ :=
  match cs with
  | [] => none
  | c :: r =>
    if c = '-' then (parseFloatMag r).map (fun q => -q)
    else if c = '+' then parseFloatMag r
    else parseFloatMag (c :: r)

/-- Model of JS `parseFloat(s)`: skip leading whitespace, optional sign,
then the longest valid decimal-literal prefix; `none` models NaN.  (The
`Infinity` literal is unreachable here: every call site lowercases its
input first, and `parseFloat` matches `Infinity` case-sensitively.) -/
def parseFloatJS (s : String) : Option ℚ :=
  parseFloatSigned (s.toList.dropWhile isJsWhitespace)

/-- Model of JS `Math.round`: round to the nearest integer, ties toward
positive infinity. -/
def jsRound (q : ℚ) : Int :=
  ⌊q + 1 / 2⌋

/-- Translation of `parseNumericValue` (src/index.ts:108-116).
`none` models a NaN result.  The JS `!value` guard is the empty-string
test; `value.toLowerCase().trim()` is `jsTrim (jsToLower value)`; the
`k` branch returns `Math.round(parseFloat(normalized.slice(0,-1)) * 1000)`
with NaN propagating through `map`; the other branch is
`parseInt(normalized, 10) || 0`, where both NaN and `0` fall through to
`0` (same value either way), modelled by `getD 0`. -/
def parseNumericValue (value : String) : Option Int :=
  if value = "" then some 0
  else
    let normalized := jsTrim (jsToLower value)
    if endsWithChar normalized 'k' then
      (parseFloatJS (dropLastChar normalized)).map (fun q => jsRound (q * 1000))
    else
      some ((parseIntJS normalized).getD 0)

/-- Translation of the `PinnedRepo` interface (src/index.ts:5-16).
Optional TS fields are `Option`; `stars`/`forks` are JS numbers coming out
of `parseNumericValue`, so they keep its `Option Int` type (`none` = NaN). -/
structure PinnedRepo where
  owner : String
  repo : String
  link : String
  description : Option String
  image : String
  website : Option String
  language : Option String
  languageColor : Option String
  stars : Option Int
  forks : Option Int
deriving DecidableEq

/-- Abstraction of one `li` of the pinned-items list, reduced to the raw
strings the cheerio queries in src/index.ts:66-77 read from it:
`find('[class*="repo"]').text()`, `find('.pinned-item-desc').text()`,
the language marker's sibling text, its `css('background-color')`
(`Option` because `css` yields `undefined` on a missing element), and the
stargazers/forks anchor texts. -/
structure RawPinnedItem where
  repoText : String
  descriptionText : String
  languageText : String
  languageColorCss : Option String
  starsText : String
  forksText : String
deriving DecidableEq

/-- Abstraction of a fetched profile page: the array that
`$('.js-pinned-items-reorder-list > li').toArray()` produces
(src/index.ts:55), in markup order. -/
structure ProfilePage where
  pinnedItems : List RawPinnedItem
deriving DecidableEq

/-- Abstraction of a fetched repository page: what
`$('[class*="BorderGrid-cell"] a[href^="https"]').first().attr("href")`
reads from it (src/index.ts:100), `none` when no such anchor exists. -/
structure RepoPage where
  firstHttpsAnchorHref : Option String
deriving DecidableEq

/-- Translation of `getRepoWebsite` (src/index.ts:97-106).  The fetch+parse
of the repository page is abstracted to its `Except` outcome: the `catch`
block turns any failure into `undefined` (`none`), a success returns the
optionally-found href after `?.trim()`. -/
def getRepoWebsite (fetchResult : Except String RepoPage) : Option String :=
  match fetchResult with
  | .error _ => none
  | .ok page => page.firstHttpsAnchorHref.map jsTrim

/-- Translation of the per-item record construction (src/index.ts:62-90).
`repo`, `description` and `language` are the trimmed query texts; empty
`description`/`language`/`languageColor` strings are normalized to absent
by the `|| undefined` fallbacks; `link` and `image` are built from
`username` and `repo`; `stars`/`forks` run the trimmed anchor texts
through `parseNumericValue`.  The already-awaited `website` result is
passed in. -/
def extractItem (username : String) (item : RawPinnedItem) (website : Option String) :
    PinnedRepo :=
  let repo := jsTrim item.repoText
  let description := jsTrim item.descriptionText
  let language := jsTrim item.languageText
  { owner := username
    repo := repo
    link := "https://github.com/" ++ username ++ "/" ++ repo
    description := if description = "" then none else some description
    image := "https://opengraph.githubassets.com/1/" ++ username ++ "/" ++ repo
    website := website
    language := if language = "" then none else some language
    languageColor :=
      match item.languageColorCss with
      | none => none
      | some cssVal => if cssVal = "" then none else some cssVal
    stars := parseNumericValue (jsTrim item.starsText)
    forks := parseNumericValue (jsTrim item.forksText) }

/-- Translation of `getPinnedRepos` (src/index.ts:53-95).  The profile
fetch is abstracted to its `Except` outcome (`loadHTML` rethrows any
failure, so an error propagates); `repoFetch` gives the outcome of the
secondary fetch per repository URL, keyed by the same
`https://github.com/{username}/{repo}` string the source builds (the
source binds `repo` once and uses it for `link`, `image` and this URL).
An empty pinned-items list returns `[]`; otherwise each item is mapped to
its record, preserving markup order as `Promise.all` does. -/
def getPinnedRepos (username : String) (profileFetch : Except String ProfilePage)
    (repoFetch : String → Except String RepoPage) : Except String (List PinnedRepo) :=
  match profileFetch with
  | .error e => .error e
  | .ok page =>
    if page.pinnedItems.isEmpty then .ok []
    else
      .ok (page.pinnedItems.map (fun item =>
        extractItem username item
          (getRepoWebsite (repoFetch
            ("https://github.com/" ++ username ++ "/" ++ jsTrim item.repoText)))))

/-- Modelled from the spec: the cache object (src/index.ts:18-20) is an
instance of the external `quick-lru` package, whose implementation is not
part of this repository's sources.  Following the spec's description — a
capacity-bounded least-recently-used mapping from username to record list
(configured capacity 500) — the cache is a list of entries ordered from
most to least recently used, with `maxSize` the configured capacity. -/
structure LRUCache where
  entries : List (String × List PinnedRepo)
  maxSize : Nat
deriving DecidableEq

/-- The cache as created at process start: empty, capacity `m`. -/
def LRUCache.empty (m : Nat) : LRUCache :=
  ⟨[], m⟩

/-- Modelled from the spec: `cache.has(username)`. -/
def LRUCache.has (c : LRUCache) (k : String) : Bool :=
  c.entries.any (fun p => p.1 == k)

/-- Modelled from the spec: the value `cache.get(username)` returns,
without the recency bump (see `LRUCache.touch`). -/
def LRUCache.get? (c : LRUCache) (k : String) : Option (List PinnedRepo) :=
  (c.entries.find? (fun p => p.1 == k)).map Prod.snd

/-- Modelled from the spec: the recency bump a successful
`cache.get(username)` performs — the entry moves to most-recently-used
position. -/
def LRUCache.touch (c : LRUCache) (k : String) : LRUCache :=
  match c.get? k with
  | none => c
  | some v => ⟨(k, v) :: c.entries.filter (fun p => p.1 != k), c.maxSize⟩

/-- Modelled from the spec: `cache.set(username, value)` — the entry
becomes most-recently-used; when the capacity would be exceeded the
least-recently-used entry (the tail of the recency order) is evicted. -/
def LRUCache.set (c : LRUCache) (k : String) (v : List PinnedRepo) : LRUCache :=
  ⟨((k, v) :: c.entries.filter (fun p => p.1 != k)).take c.maxSize, c.maxSize⟩

/-- Outcome of the synchronous part of one handler invocation
(src/index.ts:160-182): the value serialized into the response (or the
caught error), the cache as left by the synchronous path, and whether a
fire-and-forget background refresh was started. -/
structure HandlerStep where
  response : Except String (List PinnedRepo)
  cache : LRUCache
  backgroundRefresh : Bool

/-- Translation of the try-block of `handler` (src/index.ts:160-171) for a
request with a username.  `fetchSync` is the outcome `await
getPinnedRepos(username)` would have on this request's synchronous path.
On `!refresh && cache.has(username)` the cached value is returned (the
`get` bumps recency) and a background refresh is started; otherwise the
synchronous fetch either succeeds and is stored with `cache.set`, or
throws, reaching the catch block with the cache untouched. -/
def handler (fetchSync : Except String (List PinnedRepo)) (c : LRUCache)
    (username : String) (refresh : Bool) : HandlerStep :=
  if !refresh && c.has username then
    { response := .ok ((c.get? username).getD [])
      cache := c.touch username
      backgroundRefresh := true }
  else
    match fetchSync with
    | .ok data =>
      { response := .ok data, cache := c.set username data, backgroundRefresh := false }
    | .error e =>
      { response := .error e, cache := c, backgroundRefresh := false }

/-- Translation of the detached continuation
`getPinnedRepos(username).then(data => cache.set(username, data))
.catch(console.error)` (src/index.ts:165-167): a successful background
fetch overwrites the entry, a failed one only logs and leaves the cache
exactly as it was. -/
def applyBackgroundRefresh (outcome : Except String (List PinnedRepo)) (c : LRUCache)
    (username : String) : LRUCache :=
  match outcome with
  | .ok data => c.set username data
  | .error _ => c

/-- One complete request for a username: the synchronous handler step
followed — after the response value is already determined — by the
background refresh, when one was started, with its own fetch outcome
`fetchBg`.  Returns the response and the cache state once the detached
task (if any) has settled. -/
def requestStep (fetchSync fetchBg : Except String (List PinnedRepo)) (c : LRUCache)
    (username : String) (refresh : Bool) :
    Except String (List PinnedRepo) × LRUCache :=
  let r := handler fetchSync c username refresh
  (r.response, if r.backgroundRefresh then applyBackgroundRefresh fetchBg r.cache username
    else r.cache)

/-- A sequence of cache-miss requests: fold `requestStep` (no refresh
flag, successful fetches given by `f`) over a list of usernames. -/
def insertAll (f : String → List PinnedRepo) (c : LRUCache) (ks : List String) : LRUCache :=
  ks.foldl (fun acc k => (requestStep (.ok (f k)) (.ok (f k)) acc k false).2) c

/-- Concrete pinned item used by the witnesses. -/
def sampleItem : RawPinnedItem :=
  { repoText := "repo1", descriptionText := "", languageText := "",
    languageColorCss := none, starsText := "", forksText := "" }

/-- Concrete profile page used by the witnesses. -/
def samplePage : ProfilePage :=
  ⟨[sampleItem]⟩

/-- Repository-page fetcher that always fails (used by the witnesses). -/
def errRepoFetch : String → Except String RepoPage :=
  fun _ => .error ("fetch failed")

/-- The record the sample page produces under `errRepoFetch`. -/
def sampleRecord : PinnedRepo :=
  extractItem ("alice") sampleItem none

/-- Concrete cache used by the witnesses: one entry for `alice`. -/
def sampleCache : LRUCache :=
  ⟨[(("alice"), [sampleRecord])], 500⟩

/-- Pinned item whose stargazers text is a `k`-suffixed non-number and
whose forks text is negative (counterexample input). -/
def c8item : RawPinnedItem :=
  { repoText := "r", descriptionText := "", languageText := "",
    languageColorCss := none, starsText := "xk", forksText := "-5" }

/-- Profile page holding only `c8item`. -/
def c8page : ProfilePage :=
  ⟨[c8item]⟩

/-- The record `c8page` produces under `errRepoFetch`. -/
def c8rec : PinnedRepo :=
  extractItem ("u") c8item none

/-- Username consisting of `n` letters `a` (distinct usernames for the
capacity witness). -/
def keyA (n : Nat) : String :=
  String.mk (List.replicate n 'a')

/-- Five hundred distinct usernames. -/
def c9rest : List String :=
  (List.range 500).map (fun i => keyA (i + 1))

/-- A distinct 501st username, inserted first and hence least recently
used. -/
def c9k0 : String :=
  keyA 501

lemma head?_dropWhile_false {p : Char → Bool} {l : List Char} {a : Char}
    (h : (l.dropWhile p).head? = some a) : p a = false := by
  induction l with
  | nil => simp [List.dropWhile] at h
  | cons b t ih =>
    by_cases hb : p b
    · rw [List.dropWhile_cons, if_pos hb] at h
      exact ih h
    · rw [List.dropWhile_cons, if_neg hb] at h
      simp only [List.head?_cons, Option.some.injEq] at h
      subst h
      exact Bool.eq_false_iff.mpr hb

lemma dropWhile_eq_self_of_head {p : Char → Bool} {l : List Char}
    (h : ∀ a, l.head? = some a → p a = false) : l.dropWhile p = l := by
  cases l with
  | nil => rfl
  | cons b t =>
    rw [List.dropWhile_cons, if_neg]
    simp [h b rfl]

lemma head?_dropTrailing {p : Char → Bool} {l : List Char} {a : Char}
    (h : (dropTrailing p l).head? = some a) : l.head? = some a := by
  cases l with
  | nil => simp [dropTrailing] at h
  | cons b t =>
    rw [dropTrailing] at h
    cases e : dropTrailing p t with
    | nil =>
      rw [e] at h
      by_cases hb : p b
      · simp [hb] at h
      · simp only [if_neg hb, List.head?_cons, Option.some.injEq] at h
        simp [h]
    | cons c cs =>
      rw [e] at h
      simp only [List.head?_cons, Option.some.injEq] at h
      simp [h]

lemma head?_jsTrimList_not_ws {l : List Char} {a : Char}
    (h : (jsTrimList l).head? = some a) : isJsWhitespace a = false :=
  head?_dropWhile_false (head?_dropTrailing h)

lemma dropWhile_jsTrimList (l : List Char) :
    (jsTrimList l).dropWhile isJsWhitespace = jsTrimList l :=
  dropWhile_eq_self_of_head (fun _ ha => head?_jsTrimList_not_ws ha)

lemma head?_dropLast {l : List Char} {a : Char}
    (h : l.dropLast.head? = some a) : l.head? = some a := by
  cases l with
  | nil => simp at h
  | cons b t =>
    cases t with
    | nil => simp [List.dropLast] at h
    | cons c u =>
      simp only [List.dropLast, List.head?_cons, Option.some.injEq] at h
      simp [h]

lemma parseFloatMag_nonneg {cs : List Char} {q : ℚ}
    (h : parseFloatMag cs = some q) : 0 ≤ q := by
  unfold parseFloatMag at h
  by_cases hc : ((cs.takeWhile Char.isDigit).isEmpty
      && (fracPart (cs.dropWhile Char.isDigit)).1.isEmpty) = true
  · simp [hc] at h
  · rw [if_neg hc] at h
    simp only [Option.some.injEq] at h
    subst h
    positivity

lemma parseFloatSigned_nonneg {cs : List Char} {q : ℚ}
    (hhead : cs.head? ≠ some '-') (h : parseFloatSigned cs = some q) : 0 ≤ q := by
  cases cs with
  | nil => simp [parseFloatSigned] at h
  | cons c r =>
    have hc : ¬ c = '-' := by
      intro hc
      exact hhead (by simp [hc])
    rw [parseFloatSigned, if_neg hc] at h
    by_cases hc2 : c = '+'
    · rw [if_pos hc2] at h
      exact parseFloatMag_nonneg h
    · rw [if_neg hc2] at h
      exact parseFloatMag_nonneg h

lemma parseIntSigned_nonneg {cs : List Char} {n : Int}
    (hhead : cs.head? ≠ some '-') (h : parseIntSigned cs = some n) : 0 ≤ n := by
  cases cs with
  | nil => simp [parseIntSigned] at h
  | cons c r =>
    have hc : ¬ c = '-' := by
      intro hc
      exact hhead (by simp [hc])
    rw [parseIntSigned, if_neg hc] at h
    by_cases hc2 : c = '+'
    · rw [if_pos hc2] at h
      obtain ⟨m, _, hm⟩ := Option.map_eq_some'.mp h
      subst hm
      exact Int.ofNat_nonneg m
    · rw [if_neg hc2] at h
      obtain ⟨m, _, hm⟩ := Option.map_eq_some'.mp h
      subst hm
      exact Int.ofNat_nonneg m

lemma LRUCache.has_of_get? {c : LRUCache} {k : String} {v : List PinnedRepo}
    (h : c.get? k = some v) : c.has k = true := by
  unfold LRUCache.get? at h
  obtain ⟨p, hp, _⟩ := Option.map_eq_some'.mp h
  have hmem := List.mem_of_find?_eq_some hp
  have hpk := List.find?_some hp
  unfold LRUCache.has
  rw [List.any_eq_true]
  exact ⟨p, hmem, hpk⟩

lemma handler_hit {c : LRUCache} {u : String} {v : List PinnedRepo}
    {fSync : Except String (List PinnedRepo)} (h : c.get? u = some v) :
    handler fSync c u false = ⟨.ok v, c.touch u, true⟩ := by
  have hhas := LRUCache.has_of_get? h
  simp [handler, hhas, h]

lemma requestStep_miss {c : LRUCache} {u : String} {d : List PinnedRepo}
    {bg : Except String (List PinnedRepo)} (h : c.has u = false) :
    requestStep (.ok d) bg c u false = (.ok d, c.set u d) := by
  simp [requestStep, handler, h]

lemma LRUCache.set_entries_of_fresh {c : LRUCache} {k : String} {v : List PinnedRepo}
    (h : c.has k = false) :
    (c.set k v).entries = ((k, v) :: c.entries).take c.maxSize := by
  have hall : ∀ p ∈ c.entries, (p.1 == k) = false := by
    intro p hp
    cases hbe : (p.1 == k) with
    | false => rfl
    | true =>
      have hne : c.entries.any (fun q => q.1 == k) = true :=
        List.any_eq_true.mpr ⟨p, hp, hbe⟩
      rw [LRUCache.has] at h
      rw [h] at hne
      exact absurd hne Bool.false_ne_true
  have hfilter : c.entries.filter (fun p => p.1 != k) = c.entries := by
    apply List.filter_eq_self.mpr
    intro p hp
    simp [bne, hall p hp]
  rw [LRUCache.set, hfilter]

lemma LRUCache.has_set_false {c : LRUCache} {k k' : String} {v : List PinnedRepo}
    (hne : k' ≠ k) (h : c.has k' = false) : (c.set k v).has k' = false := by
  rw [LRUCache.has] at h ⊢
  rw [Bool.eq_false_iff] at h ⊢
  intro hany
  apply h
  obtain ⟨p, hp, hpk⟩ := List.any_eq_true.mp hany
  have hp2 : p ∈ (k, v) :: c.entries.filter (fun q => q.1 != k) :=
    List.take_subset _ _ hp
  rcases List.mem_cons.mp hp2 with he | hmem
  · subst he
    simp only [beq_iff_eq] at hpk
    exact absurd hpk.symm hne
  · exact List.any_eq_true.mpr ⟨p, List.mem_of_mem_filter hmem, hpk⟩

lemma take_append_take {α : Type} (A B : List α) (m : Nat) :
    (A ++ B.take m).take m = (A ++ B).take m := by
  rw [List.take_append_eq_append_take, List.take_append_eq_append_take, List.take_take]
  rw [Nat.min_eq_left (Nat.sub_le m A.length)]

lemma insertAll_entries_eq (f : String → List PinnedRepo) (ks : List String) :
    ∀ c : LRUCache, ks.Nodup → (∀ k ∈ ks, c.has k = false) →
      c.entries.length ≤ c.maxSize →
      (insertAll f c ks).entries
          = (ks.reverse.map (fun k => (k, f k)) ++ c.entries).take c.maxSize ∧
        (insertAll f c ks).maxSize = c.maxSize := by
  induction ks with
  | nil =>
    intro c _ _ hlen
    refine ⟨?_, rfl⟩
    simp only [insertAll, List.foldl_nil, List.reverse_nil, List.map_nil, List.nil_append]
    exact (List.take_of_length_le hlen).symm
  | cons k ks ih =>
    intro c hnd hfresh hlen
    have hkfresh : c.has k = false := hfresh k (List.mem_cons_self k ks)
    have hstep : insertAll f c (k :: ks) = insertAll f (c.set k (f k)) ks := by
      unfold insertAll
      rw [List.foldl_cons]
      rw [requestStep_miss hkfresh]
    have hnd2 : ks.Nodup := (List.nodup_cons.mp hnd).2
    have hknotmem : k ∉ ks := (List.nodup_cons.mp hnd).1
    have hmax : (c.set k (f k)).maxSize = c.maxSize := rfl
    have hent : (c.set k (f k)).entries = ((k, f k) :: c.entries).take c.maxSize :=
      LRUCache.set_entries_of_fresh hkfresh
    have hfresh2 : ∀ k' ∈ ks, (c.set k (f k)).has k' = false := by
      intro k' hk'
      exact LRUCache.has_set_false (fun he => hknotmem (he ▸ hk'))
        (hfresh k' (List.mem_cons_of_mem k hk'))
    have hlen2 : (c.set k (f k)).entries.length ≤ (c.set k (f k)).maxSize := by
      rw [hent, hmax]
      exact List.length_take_le _ _
    obtain ⟨ih1, ih2⟩ := ih (c.set k (f k)) hnd2 hfresh2 hlen2
    rw [hstep]
    refine ⟨?_, by rw [ih2, hmax]⟩
    rw [ih1, hent, hmax, take_append_take]
    rw [List.reverse_cons, List.map_append, List.map_cons, List.map_nil,
      List.append_assoc, List.singleton_append]

lemma keyA_inj : Function.Injective keyA := by
  intro n m h
  have h2 : List.replicate n 'a' = List.replicate m 'a' := congrArg String.toList h
  have h3 := congrArg List.length h2
  simpa using h3

lemma c9rest_length : c9rest.length = 500 := by
  simp [c9rest]

lemma c9_nodup : (c9k0 :: c9rest).Nodup := by
  rw [List.nodup_cons]
  constructor
  · intro hmem
    rw [c9rest, List.mem_map] at hmem
    obtain ⟨i, hi, hkey⟩ := hmem
    rw [List.mem_range] at hi
    have : i + 1 = 501 := keyA_inj hkey
    omega
  · apply List.Nodup.map
    · intro a b hab
      have := keyA_inj hab
      omega
    · exact List.nodup_range 500

lemma keyA_one_mem_c9rest : keyA 1 ∈ c9rest := by
  rw [c9rest, List.mem_map]
  exact ⟨0, List.mem_range.mpr (by omega), rfl⟩

lemma parseNumericValue_onePointTwoK : parseNumericValue ("1.2k") = some 1200 := by
  have h1 : parseNumericValue ("1.2k")
      = (parseFloatJS ("1.2")).map (fun q => jsRound (q * 1000)) := rfl
  have h2 : parseFloatJS ("1.2")
      = some ((((1 : Nat) : ℚ) + ((2 : Nat) : ℚ) / (10 : ℚ) ^ (1 : Nat))
          * (10 : ℚ) ^ (0 : Int)) := rfl
  rw [h1, h2]
  norm_num [jsRound]

/-- C3: the numeric normalizer maps the empty string to 0, "0" to 0,
"5" to 5, "1.2k" to 1200, "2k" to 2000 (also for an uppercase "K", since
the input is lowercased first), and "abc" to 0: a trailing
case-insensitive "k" means the prefix is parsed as a float, multiplied by
1000 and rounded to nearest, and otherwise the value is parsed as a
base-10 integer (the k branch and the integer branch are the definition
`parseNumericValue` itself, translated clause by clause from the
source).  The float parser covers the full JS decimal-literal grammar
including the `e`/`E` ExponentPart, exercised here by the extra entry
"1e3k" with value round(parseFloat("1e3") * 1000) = 1000000. -/
theorem parseNumericValue_table :
    parseNumericValue ("") = some 0 ∧
    parseNumericValue ("0") = some 0 ∧
    parseNumericValue ("5") = some 5 ∧
    parseNumericValue ("1.2k") = some 1200 ∧
    parseNumericValue ("2k") = some 2000 ∧
    parseNumericValue ("2K") = some 2000 ∧
    parseNumericValue ("abc") = some 0 ∧
    parseNumericValue ("1e3k") = some 1000000 := by
  refine ⟨by decide, by decide, by decide, parseNumericValue_onePointTwoK, ?_, ?_,
    by decide, ?_⟩
  · have h1 : parseNumericValue ("2k")
        = (parseFloatJS ("2")).map (fun q => jsRound (q * 1000)) := rfl
    have h2 : parseFloatJS ("2")
        = some ((((2 : Nat) : ℚ) + ((0 : Nat) : ℚ) / (10 : ℚ) ^ (0 : Nat))
            * (10 : ℚ) ^ (0 : Int)) := rfl
    rw [h1, h2]
    norm_num [jsRound]
  · have h1 : parseNumericValue ("2K")
        = (parseFloatJS ("2")).map (fun q => jsRound (q * 1000)) := rfl
    have h2 : parseFloatJS ("2")
        = some ((((2 : Nat) : ℚ) + ((0 : Nat) : ℚ) / (10 : ℚ) ^ (0 : Nat))
            * (10 : ℚ) ^ (0 : Int)) := rfl
    rw [h1, h2]
    norm_num [jsRound]
  · have h1 : parseNumericValue ("1e3k")
        = (parseFloatJS ("1e3")).map (fun q => jsRound (q * 1000)) := rfl
    have h2 : parseFloatJS ("1e3")
        = some ((((1 : Nat) : ℚ) + ((0 : Nat) : ℚ) / (10 : ℚ) ^ (0 : Nat))
            * (10 : ℚ) ^ (3 : Int)) := rfl
    rw [h1, h2]
    norm_num [jsRound]

/-- C4 counterexample: on "3,400" the claim fails — JS `parseInt` parses
the longest leading digit run, so `parseInt("3,400", 10)` is 3, not NaN,
and `parseNumericValue` returns 3 rather than the claimed 0. -/
theorem parseNumericValue_comma_counterexample :
    parseNumericValue ("3,400") ≠ some 0 := by
  decide

/-- C4 amended: `parseNumericValue` applied to "3,400" parses the digit
run before the comma and yields 3 (integer parsing does not fail; it
stops at the comma). -/
theorem parseNumericValue_comma_amended :
    parseNumericValue ("3,400") = some 3 := by
  decide

/-- C10: for the non-empty input "xk", which ends in "k" with a prefix
that does not parse as a float, `parseNumericValue` does not return 0 —
it returns the NaN result (`none`) propagated from the k branch — while
the same unparseable prefix without the "k" suffix falls into the integer
branch whose fallback yields 0. -/
theorem parseNumericValue_k_branch_nan :
    parseNumericValue ("xk") = none ∧
    parseNumericValue ("xk") ≠ some 0 ∧
    parseNumericValue ("x") = some 0 := by
  refine ⟨by decide, by decide, by decide⟩

/-- C5: a successfully retrieved profile page with no pinned-items markup
yields an empty list, not an error; every successfully retrieved page
yields some list (never an error); and the only error case of
`getPinnedRepos` is a failed profile-page fetch, whose error propagates. -/
theorem getPinnedRepos_no_pinned_markup (u : String)
    (fr : String → Except String RepoPage) :
    (getPinnedRepos u (.ok ⟨[]⟩) fr = .ok []) ∧
    (∀ page : ProfilePage, ∃ l, getPinnedRepos u (.ok page) fr = .ok l) ∧
    (∀ e : String, getPinnedRepos u (.error e) fr = .error e) := by
  refine ⟨rfl, ?_, fun e => rfl⟩
  intro page
  rw [getPinnedRepos]
  by_cases hp : page.pinnedItems.isEmpty
  · rw [if_pos hp]
    exact ⟨[], rfl⟩
  · rw [if_neg hp]
    exact ⟨_, rfl⟩

/-- C6: the website discoverer converts a failed repository-page fetch to
an absent result (it is a total function, so it never raises), and a
record built with an absent website is identical to the record built with
any other website result except for the `website` field — the enclosing
repository record stays intact. -/
theorem website_discovery_failure_isolated :
    (∀ e : String, getRepoWebsite (.error e) = none) ∧
    (∀ (u : String) (item : RawPinnedItem) (w : Option String),
      extractItem u item none = { extractItem u item w with website := none }) := by
  exact ⟨fun e => rfl, fun u item w => rfl⟩

/-- C7: every record of a successfully returned repo list has
`link = "https://github.com/" ++ owner ++ "/" ++ repo` and
`image = "https://opengraph.githubassets.com/1/" ++ owner ++ "/" ++ repo`,
so both are always present and are pure functions of owner and repo
only. -/
theorem repo_link_image_derived (u : String) (page : ProfilePage)
    (fr : String → Except String RepoPage) (l : List PinnedRepo) (r : PinnedRepo)
    (hl : getPinnedRepos u (.ok page) fr = .ok l) (hr : r ∈ l) :
    r.link = "https://github.com/" ++ r.owner ++ "/" ++ r.repo ∧
    r.image = "https://opengraph.githubassets.com/1/" ++ r.owner ++ "/" ++ r.repo := by
  rw [getPinnedRepos] at hl
  by_cases hp : page.pinnedItems.isEmpty
  · rw [if_pos hp] at hl
    injection hl with hl2
    subst hl2
    exact absurd hr (List.not_mem_nil r)
  · rw [if_neg hp] at hl
    injection hl with hl2
    subst hl2
    obtain ⟨item, _, hit⟩ := List.mem_map.mp hr
    subst hit
    exact ⟨rfl, rfl⟩

/-- C7 witness: the sample page's record satisfies the link/image
equations. -/
theorem repo_link_image_derived_witness :
    sampleRecord.link = "https://github.com/" ++ sampleRecord.owner ++ "/" ++ sampleRecord.repo ∧
    sampleRecord.image
      = "https://opengraph.githubassets.com/1/" ++ sampleRecord.owner ++ "/" ++ sampleRecord.repo := by
  exact repo_link_image_derived ("alice") samplePage errRepoFetch [sampleRecord]
    sampleRecord rfl (by simp)

/-- C8 counterexample: a returned repo list whose stars field is NaN
(`none`, in particular not 0 and not a non-negative integer) because the
stargazers text "xk" takes the k branch with an unparseable prefix, and
whose forks field is the negative integer -5 from the forks text "-5". -/
theorem stars_forks_counterexample :
    getPinnedRepos ("u") (.ok c8page) errRepoFetch = .ok [c8rec] ∧
    c8rec.stars = none ∧
    c8rec.stars ≠ some 0 ∧
    c8rec.forks = some (-5) := by
  refine ⟨rfl, by decide, by decide, by decide⟩

/-- C8 amended: the stars and forks of every returned record are the
numeric normalizer's output on the trimmed markup texts; that output is 0
whenever the text does not end (case-insensitively) in "k" and integer
parsing fails, and it is a non-negative integer whenever the normalized
text does not start with a minus sign and the normalizer yields a number
at all — but a k-suffixed text with unparseable prefix yields NaN rather
than 0, and a leading minus yields a negative value, so the original
claim's unconditional non-negativity and unconditional default-to-0 do
not hold. -/
theorem stars_forks_amended :
    (∀ (u : String) (page : ProfilePage) (fr : String → Except String RepoPage)
        (l : List PinnedRepo) (r : PinnedRepo),
      getPinnedRepos u (.ok page) fr = .ok l → r ∈ l →
      ∃ item, item ∈ page.pinnedItems ∧
        r.stars = parseNumericValue (jsTrim item.starsText) ∧
        r.forks = parseNumericValue (jsTrim item.forksText)) ∧
    (∀ s : String, endsWithChar (jsTrim (jsToLower s)) 'k' = false →
      parseIntJS (jsTrim (jsToLower s)) = none → parseNumericValue s = some 0) ∧
    (∀ (s : String) (n : Int), (jsTrim (jsToLower s)).toList.head? ≠ some '-' →
      parseNumericValue s = some n → 0 ≤ n) := by
  refine ⟨?_, ?_, ?_⟩
  · intro u page fr l r hl hr
    rw [getPinnedRepos] at hl
    by_cases hp : page.pinnedItems.isEmpty
    · rw [if_pos hp] at hl
      injection hl with hl2
      subst hl2
      exact absurd hr (List.not_mem_nil r)
    · rw [if_neg hp] at hl
      injection hl with hl2
      subst hl2
      obtain ⟨item, hitem, hit⟩ := List.mem_map.mp hr
      subst hit
      exact ⟨item, hitem, rfl, rfl⟩
  · intro s hk hint
    by_cases hs : s = ""
    · subst hs
      rfl
    · simp [parseNumericValue, hs, hk, hint]
  · intro s n hhead h
    by_cases hs : s = ""
    · subst hs
      have h0 : some (0 : Int) = some n := h
      injection h0 with h1
      omega
    · simp only [parseNumericValue, if_neg hs] at h
      by_cases hk : endsWithChar (jsTrim (jsToLower s)) 'k' = true
      · rw [if_pos hk] at h
        obtain ⟨q, hq, hn⟩ := Option.map_eq_some'.mp h
        subst hn
        have hws : ∀ a, (jsTrim (jsToLower s)).toList.head? = some a →
            isJsWhitespace a = false := by
          intro a ha
          exact head?_jsTrimList_not_ws ha
        have hhead2 :
            ((dropLastChar (jsTrim (jsToLower s))).toList.dropWhile isJsWhitespace).head?
              ≠ some '-' := by
          intro hcon
          have hcon2 :
              ((jsTrim (jsToLower s)).toList.dropLast.dropWhile isJsWhitespace).head?
                = some '-' := hcon
          cases e : (jsTrim (jsToLower s)).toList.dropLast.head? with
          | none =>
            have he : (jsTrim (jsToLower s)).toList.dropLast = [] :=
              List.head?_eq_none_iff.mp e
            rw [he] at hcon2
            simp at hcon2
          | some a =>
            have ha : (jsTrim (jsToLower s)).toList.head? = some a := head?_dropLast e
            have hdw : (jsTrim (jsToLower s)).toList.dropLast.dropWhile isJsWhitespace
                = (jsTrim (jsToLower s)).toList.dropLast := by
              apply dropWhile_eq_self_of_head
              intro b hb
              rw [e] at hb
              injection hb with hb2
              subst hb2
              exact hws a ha
            rw [hdw, e] at hcon2
            injection hcon2 with hc3
            subst hc3
            exact hhead ha
        have hq0 : 0 ≤ q := parseFloatSigned_nonneg hhead2 hq
        rw [jsRound]
        rw [Int.le_floor]
        push_cast
        linarith
      · rw [if_neg hk] at h
        injection h with h2
        cases hp : parseIntJS (jsTrim (jsToLower s)) with
        | none =>
          rw [hp] at h2
          simp only [Option.getD_none] at h2
          omega
        | some m =>
          rw [hp] at h2
          simp only [Option.getD_some] at h2
          subst h2
          have hdw : ((jsTrim (jsToLower s)).toList.dropWhile isJsWhitespace)
              = (jsTrim (jsToLower s)).toList := dropWhile_jsTrimList _
          have hh2 : ((jsTrim (jsToLower s)).toList.dropWhile isJsWhitespace).head?
              ≠ some '-' := by
            rw [hdw]
            exact hhead
          exact parseIntSigned_nonneg hh2 hp

/-- C8 witness: the amended theorem applied at concrete inputs — "abc"
falls back to 0 on the integer branch, and the k-branch result for
"1.2k" is a non-negative integer. -/
theorem stars_forks_amended_witness :
    parseNumericValue ("abc") = some 0 ∧ (0 : Int) ≤ 1200 := by
  refine ⟨stars_forks_amended.2.1 ("abc") (by decide) (by decide), ?_⟩
  exact stars_forks_amended.2.2 ("1.2k") 1200 (by decide) parseNumericValue_onePointTwoK

/-- C1: when a username has a cache entry, a failed fetch leaves the entry
unchanged — a synchronous fetch under refresh=true propagates its error in
the response and returns the whole cache (hence the entry) untouched, a
failed background refresh leaves the cache exactly as it was, and after
the failed forced refresh a subsequent non-refresh request still answers
with the previously cached value. -/
theorem refresh_failure_preserves_cache (c : LRUCache) (u : String)
    (v : List PinnedRepo) (e e2 : String)
    (f2 bg bg2 : Except String (List PinnedRepo))
    (h : c.get? u = some v) :
    requestStep (.error e) bg c u true = (.error e, c) ∧
    applyBackgroundRefresh (.error e2) c u = c ∧
    (requestStep f2 bg2 (requestStep (.error e) bg c u true).2 u false).1 = .ok v := by
  have h1 : requestStep (.error e) bg c u true = (.error e, c) := by
    simp [requestStep, handler]
  refine ⟨h1, rfl, ?_⟩
  rw [h1]
  have hhit : handler f2 c u false = ⟨.ok v, c.touch u, true⟩ := handler_hit h
  simp [requestStep, hhit]

/-- C1 witness: the sample cache with an entry for alice, a failed forced
refresh, a failed background refresh, and the follow-up non-refresh
request. -/
theorem refresh_failure_preserves_cache_witness :
    requestStep (.error ("boom")) (.ok []) sampleCache ("alice") true
        = (.error ("boom"), sampleCache) ∧
    applyBackgroundRefresh (.error ("bgfail")) sampleCache ("alice") = sampleCache ∧
    (requestStep (.ok []) (.ok [])
        (requestStep (.error ("boom")) (.ok []) sampleCache ("alice") true).2
        ("alice") false).1 = .ok [sampleRecord] := by
  exact refresh_failure_preserves_cache sampleCache ("alice") [sampleRecord]
    ("boom") ("bgfail") (.ok []) (.ok []) (.ok []) (by decide)

/-- C2: a request whose username has a cache entry and whose refresh flag
is not set answers with exactly the previously cached record list —
whatever the synchronous-fetch oracle would return and whatever the
triggered background refresh's outcome is, neither affects the response —
and such a request does trigger a background refresh. -/
theorem cache_hit_serves_cached_value (c : LRUCache) (u : String)
    (v : List PinnedRepo) (fSync bg : Except String (List PinnedRepo))
    (h : c.get? u = some v) :
    (requestStep fSync bg c u false).1 = .ok v ∧
    (handler fSync c u false).backgroundRefresh = true := by
  have hhit : handler fSync c u false = ⟨.ok v, c.touch u, true⟩ := handler_hit h
  refine ⟨?_, by rw [hhit]⟩
  simp [requestStep, hhit]

/-- C2 witness: the sample cache hit answers with the cached list even
when both fetch oracles fail. -/
theorem cache_hit_serves_cached_value_witness :
    (requestStep (.error ("down")) (.error ("bgdown")) sampleCache ("alice") false).1
        = .ok [sampleRecord] ∧
    (handler (.error ("down")) sampleCache ("alice") false).backgroundRefresh = true := by
  exact cache_hit_serves_cached_value sampleCache ("alice") [sampleRecord]
    (.error ("down")) (.error ("bgdown")) (by decide)

/-- C9: inserting 501 distinct usernames into the empty capacity-500 cache
through cache-miss requests leaves at most 500 entries, evicts exactly the
least-recently-used username (the one inserted first and never touched
again) while keeping the other 500, and a later non-refresh request for
the evicted username behaves as a cache miss: it fetches synchronously,
answers with the fetched data and stores it. -/
theorem cache_capacity_lru_eviction (f : String → List PinnedRepo) (k0 : String)
    (rest : List String) (hnd : (k0 :: rest).Nodup) (hlen : rest.length = 500)
    (d : List PinnedRepo) (bg : Except String (List PinnedRepo)) :
    (insertAll f (LRUCache.empty 500) (k0 :: rest)).entries.length ≤ 500 ∧
    (insertAll f (LRUCache.empty 500) (k0 :: rest)).has k0 = false ∧
    (∀ k ∈ rest, (insertAll f (LRUCache.empty 500) (k0 :: rest)).has k = true) ∧
    requestStep (.ok d) bg (insertAll f (LRUCache.empty 500) (k0 :: rest)) k0 false
      = (.ok d, (insertAll f (LRUCache.empty 500) (k0 :: rest)).set k0 d) := by
  obtain ⟨hent, _⟩ := insertAll_entries_eq f (k0 :: rest) (LRUCache.empty 500) hnd
    (fun k _ => rfl) (Nat.zero_le _)
  have hrl : (rest.reverse.map (fun k => (k, f k))).length = 500 := by
    simp [hlen]
  have hfin : (insertAll f (LRUCache.empty 500) (k0 :: rest)).entries
      = rest.reverse.map (fun k => (k, f k)) := by
    rw [hent]
    show (((k0 :: rest).reverse.map (fun k => (k, f k))) ++ []).take 500 = _
    rw [List.append_nil, List.reverse_cons, List.map_append, List.take_append_eq_append_take]
    rw [List.take_of_length_le (le_of_eq hrl), hrl]
    simp
  have hk0 : (insertAll f (LRUCache.empty 500) (k0 :: rest)).has k0 = false := by
    rw [LRUCache.has, hfin]
    cases hb : (rest.reverse.map (fun k => (k, f k))).any (fun p => p.1 == k0) with
    | false => rfl
    | true =>
      exfalso
      obtain ⟨p, hp, hpk⟩ := List.any_eq_true.mp hb
      obtain ⟨k, hk, hkp⟩ := List.mem_map.mp hp
      subst hkp
      simp only [beq_iff_eq] at hpk
      subst hpk
      exact (List.nodup_cons.mp hnd).1 (List.mem_reverse.mp hk)
  refine ⟨?_, hk0, ?_, requestStep_miss hk0⟩
  · rw [hfin]
    exact le_of_eq hrl
  · intro k hk
    rw [LRUCache.has, hfin, List.any_eq_true]
    refine ⟨(k, f k), List.mem_map.mpr ⟨k, List.mem_reverse.mpr hk, rfl⟩, ?_⟩
    simp

/-- C9 witness: 501 concrete distinct usernames (strings of 1 to 501
letters a, the 501-letter one inserted first): the first-inserted one is
evicted, a later-inserted one is still present, and the request for the
evicted one is a synchronous-fetch miss. -/
theorem cache_capacity_lru_eviction_witness :
    (insertAll (fun _ => []) (LRUCache.empty 500) (c9k0 :: c9rest)).has c9k0 = false ∧
    (insertAll (fun _ => []) (LRUCache.empty 500) (c9k0 :: c9rest)).has (keyA 1) = true ∧
    requestStep (.ok []) (.ok [])
        (insertAll (fun _ => []) (LRUCache.empty 500) (c9k0 :: c9rest)) c9k0 false
      = (.ok [],
          (insertAll (fun _ => []) (LRUCache.empty 500) (c9k0 :: c9rest)).set c9k0 []) := by
  have h := cache_capacity_lru_eviction (fun _ => []) c9k0 c9rest c9_nodup
    c9rest_length [] (.ok [])
  exact ⟨h.2.1, h.2.2.1 (keyA 1) keyA_one_mem_c9rest, h.2.2.2⟩
